import Mathlib

set_option maxRecDepth 8000

namespace Benthos

/-!
Verification of the core message fabric of the benthos stream
processor.  Go code is shallowly embedded: batches are lists of parts,
machine integers are `Nat` with explicit `% 2 ^ 32` where the code
truncates, fallible operations return `Except`/`Option`.
-/

/-! ### Batch wire format

Modelled from the spec: `internal/message` serialisation
(`ToBytes`/`FromBytes`) is not part of the provided sources, only its
tests.  The spec describes the frame as a big-endian `uint32` part
count followed, per part, by a big-endian `uint32` length and exactly
that many bytes, with any other shape rejected.  A byte is a `Nat`
below 256, a part is a list of bytes.
-/

/-- Big-endian encoding of a `uint32` value (the Go code truncates to
32 bits). -/
def u32be (n : Nat) : List Nat :=
  [n / 2 ^ 24 % 256, n / 2 ^ 16 % 256, n / 2 ^ 8 % 256, n % 256]

/-- Read a big-endian `uint32` from the head of a byte list. -/
def readU32be : List Nat → Option (Nat × List Nat)
  | b0 :: b1 :: b2 :: b3 :: rest => some (((b0 * 256 + b1) * 256 + b2) * 256 + b3, rest)
  | _ => none

/-- Read `n` length-prefixed parts from a byte list, returning the
parts and the remaining bytes. -/
def readParts : Nat → List Nat → Option (List (List Nat) × List Nat)
  | 0, rest => some ([], rest)
  | n + 1, b =>
    match readU32be b with
    | none => none
    | some (len, rest) =>
      if len ≤ rest.length then
        match readParts n (rest.drop len) with
        | none => none
        | some (ps, rest2) => some (rest.take len :: ps, rest2)
      else none

/-- Modelled from the spec: the error returned by `FromBytes` on any
byte sequence that is not a well-formed frame. -/
def ErrBadMessageBytes : String := "message bytes were in an invalid format"

/-- Modelled from the spec: `FromBytes` parses the self-describing
frame and rejects every other shape (truncation, inconsistent length,
trailing bytes). -/
def FromBytes (b : List Nat) : Except String (List (List Nat)) :=
  match readU32be b with
  | none => .error ErrBadMessageBytes
  | some (n, rest) =>
    match readParts n rest with
    | none => .error ErrBadMessageBytes
    | some (ps, rest2) => if rest2 = [] then .ok ps else .error ErrBadMessageBytes

/-- Modelled from the spec: `ToBytes` serialises a batch as a `uint32`
part count followed by a length-prefixed chunk per part. -/
def ToBytes (m : List (List Nat)) : List Nat :=
  u32be m.length ++ (m.map fun p => u32be p.length ++ p).flatten

theorem readU32be_u32be (n : Nat) (rest : List Nat) :
    readU32be (u32be n ++ rest) = some (n % 2 ^ 32, rest) := by
  show some _ = some _
  simp only [Option.some.injEq, Prod.mk.injEq]
  exact ⟨by omega, rfl⟩

theorem readParts_encode (m : List (List Nat)) (h : ∀ p ∈ m, p.length < 2 ^ 32)
    (tail : List Nat) :
    readParts m.length ((m.map fun p => u32be p.length ++ p).flatten ++ tail) =
      some (m, tail) := by
  induction m with
  | nil => rfl
  | cons p ps ih =>
    have hp : p.length < 2 ^ 32 := h p (by simp)
    have hps : ∀ q ∈ ps, q.length < 2 ^ 32 := fun q hq => h q (by simp [hq])
    have hgoal : readParts (ps.length + 1)
        (u32be p.length ++ (p ++ ((ps.map fun q => u32be q.length ++ q).flatten ++ tail))) =
        some (p :: ps, tail) := by
      rw [readParts]
      simp only [readU32be_u32be, Nat.mod_eq_of_lt hp]
      have hle : p.length ≤ (p ++ ((ps.map fun q => u32be q.length ++ q).flatten ++ tail)).length := by
        simp
      rw [if_pos hle, List.take_left, List.drop_left, ih hps]
    simpa [List.append_assoc] using hgoal

/-- Round trip: deserialising a serialised batch recovers the parts. -/
theorem fromBytes_toBytes (m : List (List Nat)) (h1 : m.length < 2 ^ 32)
    (h2 : ∀ p ∈ m, p.length < 2 ^ 32) :
    FromBytes (ToBytes m) = .ok m := by
  have henc := readParts_encode m h2 []
  rw [List.append_nil] at henc
  unfold FromBytes ToBytes
  simp only [readU32be_u32be, Nat.mod_eq_of_lt h1, henc]
  simp

theorem readU32be_canon {b : List Nat} {n : Nat} {rest : List Nat}
    (hok : readU32be b = some (n, rest)) (hb : ∀ x ∈ b, x < 256) :
    b = u32be n ++ rest ∧ n < 2 ^ 32 := by
  match b with
  | b0 :: b1 :: b2 :: b3 :: r =>
    simp only [readU32be, Option.some.injEq, Prod.mk.injEq] at hok
    obtain ⟨hn, hr⟩ := hok
    have h0 : b0 < 256 := hb b0 (by simp)
    have h1 : b1 < 256 := hb b1 (by simp)
    have h2 : b2 < 256 := hb b2 (by simp)
    have h3 : b3 < 256 := hb b3 (by simp)
    subst hr
    refine ⟨?_, by omega⟩
    simp only [u32be, List.cons_append, List.nil_append, List.cons.injEq]
    refine ⟨by omega, by omega, by omega, by omega, trivial⟩
  | [] => simp [readU32be] at hok
  | [_] => simp [readU32be] at hok
  | [_, _] => simp [readU32be] at hok
  | [_, _, _] => simp [readU32be] at hok

theorem readParts_canon {k : Nat} {b : List Nat} {ps : List (List Nat)}
    {rest : List Nat} (hok : readParts k b = some (ps, rest))
    (hb : ∀ x ∈ b, x < 256) :
    b = (ps.map fun p => u32be p.length ++ p).flatten ++ rest ∧
      ps.length = k ∧ (∀ p ∈ ps, p.length < 2 ^ 32) ∧ (∀ x ∈ rest, x < 256) := by
  induction k generalizing b ps rest with
  | zero =>
    simp only [readParts, Option.some.injEq, Prod.mk.injEq] at hok
    obtain ⟨hps, hr⟩ := hok
    subst hps; subst hr
    simpa using hb
  | succ n ih =>
    rw [readParts] at hok
    match hu : readU32be b with
    | none => simp [hu] at hok
    | some (len, r1) =>
      simp only [hu] at hok
      by_cases hle : len ≤ r1.length
      · rw [if_pos hle] at hok
        obtain ⟨hb', hlen⟩ := readU32be_canon hu hb
        have hr1 : ∀ x ∈ r1, x < 256 := by
          intro x hx
          exact hb x (by rw [hb']; simp [hx])
        match hrp : readParts n (r1.drop len) with
        | none => simp [hrp] at hok
        | some (ps', rest') =>
          simp only [hrp, Option.some.injEq, Prod.mk.injEq] at hok
          obtain ⟨hps, hr⟩ := hok
          have hdrop : ∀ x ∈ r1.drop len, x < 256 := fun x hx =>
            hr1 x (List.mem_of_mem_drop hx)
          obtain ⟨hcanon, hlen', hbound, hrest⟩ := ih hrp hdrop
          subst hps; subst hr
          refine ⟨?_, by simp [hlen'], ?_, hrest⟩
          · rw [hb']
            simp only [List.map_cons, List.flatten_cons, List.append_assoc]
            congr 1
            rw [List.length_take, Nat.min_eq_left hle]
            rw [← hcanon, List.take_append_drop]
          · intro p hp
            rcases List.mem_cons.mp hp with h | h
            · subst h
              rw [List.length_take, Nat.min_eq_left hle]
              exact hlen
            · exact hbound p h
      · rw [if_neg hle] at hok
        exact absurd hok (by simp)

/-- Completeness: `FromBytes` succeeds only on the canonical frame of
the batch it returns; every other byte shape is rejected. -/
theorem fromBytes_canon {b : List Nat} {m : List (List Nat)}
    (hb : ∀ x ∈ b, x < 256) (hok : FromBytes b = .ok m) :
    b = ToBytes m := by
  unfold FromBytes at hok
  match hu : readU32be b with
  | none => simp [hu] at hok
  | some (n, rest) =>
    simp only [hu] at hok
    obtain ⟨hb', hn⟩ := readU32be_canon hu hb
    have hrest : ∀ x ∈ rest, x < 256 := by
      intro x hx
      exact hb x (by rw [hb']; simp [hx])
    match hrp : readParts n rest with
    | none => simp [hrp] at hok
    | some (ps, rest2) =>
      simp only [hrp] at hok
      by_cases hr2 : rest2 = []
      · rw [if_pos hr2] at hok
        simp only [Except.ok.injEq] at hok
        subst hok
        obtain ⟨hcanon, hlen, _, _⟩ := readParts_canon hrp hrest
        unfold ToBytes
        rw [hb', hcanon, hr2, hlen, List.append_nil]
      · rw [if_neg hr2] at hok
        exact absurd hok (by simp)

/-- C3: serialising with ToBytes then deserialising with FromBytes
yields back the same parts in the same order, and FromBytes accepts a
byte sequence only when it is exactly the canonical frame shape (a
uint32 part count then, per part, a uint32 length plus that many
bytes); everything else is rejected. -/
theorem serialisation_roundtrip_and_reject :
    (∀ m : List (List Nat), m.length < 2 ^ 32 → (∀ p ∈ m, p.length < 2 ^ 32) →
      FromBytes (ToBytes m) = .ok m) ∧
    (∀ (b : List Nat) (m : List (List Nat)), (∀ x ∈ b, x < 256) →
      FromBytes b = .ok m → b = ToBytes m) :=
  ⟨fun m h1 h2 => fromBytes_toBytes m h1 h2, fun _ _ hb hok => fromBytes_canon hb hok⟩

/-- Witness for C3 at the concrete batch from the serialisation test
(parts "hello", "world", "12345" as bytes). -/
theorem serialisation_roundtrip_witness :
    FromBytes (ToBytes [[104, 101, 108, 108, 111], [119, 111, 114, 108, 100],
      [49, 50, 51, 52, 53]]) = .ok [[104, 101, 108, 108, 111],
      [119, 111, 114, 108, 100], [49, 50, 51, 52, 53]] :=
  serialisation_roundtrip_and_reject.1 _ (by decide) (by decide)

/-! ### Structured (JSON) content of a part

Modelled from the spec: `internal/message` part internals are not in
the provided sources, only their tests.  A part keeps raw bytes (here
a `String`, the tests are ASCII) together with a lazily maintained
structured view.  Setting structured content re-materialises the body
as the canonical serialisation and caches the value; setting raw bytes
invalidates the cache.  JSON numbers are modelled as integers, which
covers every payload in the repository tests.
-/

mutual

inductive Json where
  | null
  | bool (b : Bool)
  | num (n : Int)
  | str (s : String)
  | arr (elems : JsonArr)
  | obj (fields : JsonObj)

/-- The element list of a JSON array. -/
inductive JsonArr where
  | nil
  | cons (hd : Json) (tl : JsonArr)

/-- The member list of a JSON object, in canonical key order. -/
inductive JsonObj where
  | nil
  | cons (key : String) (val : Json) (tl : JsonObj)

end

/-- Build an array value from a plain list of elements. -/
def jarrOf : List Json → JsonArr
  | [] => .nil
  | v :: vs => .cons v (jarrOf vs)

/-- Build an object value from a plain member list. -/
def jobjOf : List (String × Json) → JsonObj
  | [] => .nil
  | (k, v) :: kvs => .cons k v (jobjOf kvs)

def quoteChar : Char := Char.ofNat 34

def backslashChar : Char := Char.ofNat 92

def lbraceChar : Char := Char.ofNat 123

def rbraceChar : Char := Char.ofNat 125

/-- Escape a string body the way the canonical serialiser does
(quotes and backslashes; the test payloads contain no control
characters). -/
def jsonEscape (s : String) : String :=
  ⟨s.data.flatMap fun c =>
    if c = quoteChar ∨ c = backslashChar then [backslashChar, c] else [c]⟩

def jsonQuote (s : String) : String :=
  quoteChar.toString ++ jsonEscape s ++ quoteChar.toString

mutual

/-- Modelled from the spec: the canonical compact JSON serialisation
produced by `SetJSON` (object fields are kept in the canonical key
order of the Go map serialisation). -/
def serializeJson : Json → String
  | .null => "null"
  | .bool true => "true"
  | .bool false => "false"
  | .num n => toString n
  | .str s => jsonQuote s
  | .arr xs => "[" ++ serializeArrItems xs ++ "]"
  | .obj fs => "\x7b" ++ serializeObjItems fs ++ "\x7d"

/-- Comma-joined serialisation of array elements. -/
def serializeArrItems : JsonArr → String
  | .nil => ""
  | .cons v .nil => serializeJson v
  | .cons v tl => serializeJson v ++ "," ++ serializeArrItems tl

/-- Comma-joined serialisation of object members. -/
def serializeObjItems : JsonObj → String
  | .nil => ""
  | .cons k v .nil => jsonQuote k ++ ":" ++ serializeJson v
  | .cons k v tl => jsonQuote k ++ ":" ++ serializeJson v ++ "," ++ serializeObjItems tl

end

theorem serializeJson_example :
    serializeJson (.obj (jobjOf [("foo", .obj (jobjOf [("bar", .str "baz")]))])) =
      "\x7b\"foo\":\x7b\"bar\":\"baz\"\x7d\x7d" := by
  rfl

def isWsChar (c : Char) : Bool :=
  c.toNat = 32 ∨ c.toNat = 9 ∨ c.toNat = 10 ∨ c.toNat = 13

def skipWs : List Char → List Char
  | [] => []
  | c :: cs => if isWsChar c then skipWs cs else c :: cs

/-- Consume the characters of a string literal after the opening
quote, handling quote and backslash escapes. -/
def parseStringChars : List Char → Except String (List Char × List Char)
  | [] => .error "unexpected end of input inside string literal"
  | c :: cs =>
    if c = quoteChar then .ok ([], cs)
    else if c = backslashChar then
      match cs with
      | [] => .error "unexpected end of input inside escape"
      | e :: cs' =>
        if e = quoteChar ∨ e = backslashChar then
          match parseStringChars cs' with
          | .ok (body, rest) => .ok (e :: body, rest)
          | .error msg => .error msg
        else .error "unsupported escape sequence"
    else
      match parseStringChars cs with
      | .ok (body, rest) => .ok (c :: body, rest)
      | .error msg => .error msg

def takeDigits : List Char → List Char × List Char
  | [] => ([], [])
  | c :: cs =>
    if c.isDigit then
      let (ds, rest) := takeDigits cs
      (c :: ds, rest)
    else ([], c :: cs)

def digitsToNat (ds : List Char) : Nat :=
  ds.foldl (fun acc c => acc * 10 + (c.toNat - 48)) 0

/-- Check that a literal keyword prefixes the input and return the
remainder. -/
def parseKeyword (kw : List Char) (cs : List Char) : Except String (List Char) :=
  match kw, cs with
  | [], rest => .ok rest
  | k :: kws, c :: cs' =>
    if c = k then parseKeyword kws cs' else .error "invalid character in literal"
  | _ :: _, [] => .error "unexpected end of input in literal"

mutual

/-- One JSON value from the head of the input (leading whitespace
allowed), returning the value and the unconsumed remainder. -/
def parseVal : Nat → List Char → Except String (Json × List Char)
  | 0, _ => .error "document too deeply nested"
  | fuel + 1, cs =>
    match skipWs cs with
    | [] => .error "unexpected end of input"
    | c :: cs' =>
      if c = 'n' then
        match parseKeyword ['u', 'l', 'l'] cs' with
        | .ok rest => .ok (.null, rest)
        | .error msg => .error msg
      else if c = 't' then
        match parseKeyword ['r', 'u', 'e'] cs' with
        | .ok rest => .ok (.bool true, rest)
        | .error msg => .error msg
      else if c = 'f' then
        match parseKeyword ['a', 'l', 's', 'e'] cs' with
        | .ok rest => .ok (.bool false, rest)
        | .error msg => .error msg
      else if c = quoteChar then
        match parseStringChars cs' with
        | .ok (body, rest) => .ok (.str ⟨body⟩, rest)
        | .error msg => .error msg
      else if c = '[' then
        parseArr fuel cs'
      else if c = lbraceChar then
        parseObj fuel cs'
      else if c = '-' then
        match takeDigits cs' with
        | ([], _) => .error "invalid character after minus sign"
        | (ds, rest) => .ok (.num (-(digitsToNat ds : Int)), rest)
      else if c.isDigit then
        match takeDigits (c :: cs') with
        | (ds, rest) => .ok (.num (digitsToNat ds : Int), rest)
      else .error "invalid character looking for beginning of value"

/-- The elements of an array after the opening bracket. -/
def parseArr : Nat → List Char → Except String (Json × List Char)
  | 0, _ => .error "document too deeply nested"
  | fuel + 1, cs =>
    match skipWs cs with
    | c :: cs' =>
      if c = ']' then .ok (.arr .nil, cs')
      else
        match parseVal fuel cs with
        | .error msg => .error msg
        | .ok (v, rest) => parseArrTail fuel v [] rest
    | [] => .error "unexpected end of input inside array"

/-- Remaining elements of an array, given those parsed so far in
reverse order. -/
def parseArrTail : Nat → Json → List Json → List Char → Except String (Json × List Char)
  | 0, _, _, _ => .error "document too deeply nested"
  | fuel + 1, v, acc, cs =>
    match skipWs cs with
    | c :: cs' =>
      if c = ']' then .ok (.arr (jarrOf ((v :: acc).reverse)), cs')
      else if c = ',' then
        match parseVal fuel cs' with
        | .error msg => .error msg
        | .ok (v', rest) => parseArrTail fuel v' (v :: acc) rest
      else .error "invalid character after array element"
    | [] => .error "unexpected end of input inside array"

/-- The members of an object after the opening brace. -/
def parseObj : Nat → List Char → Except String (Json × List Char)
  | 0, _ => .error "document too deeply nested"
  | fuel + 1, cs =>
    match skipWs cs with
    | c :: cs' =>
      if c = rbraceChar then .ok (.obj .nil, cs')
      else
        match parseMember fuel cs with
        | .error msg => .error msg
        | .ok (k, v, rest) => parseObjTail fuel (k, v) [] rest
    | [] => .error "unexpected end of input inside object"

/-- One `"key": value` member of an object. -/
def parseMember : Nat → List Char → Except String (String × Json × List Char)
  | 0, _ => .error "document too deeply nested"
  | fuel + 1, cs =>
    match skipWs cs with
    | c :: cs' =>
      if c = quoteChar then
        match parseStringChars cs' with
        | .error msg => .error msg
        | .ok (key, rest) =>
          match skipWs rest with
          | c2 :: rest' =>
            if c2 = ':' then
              match parseVal fuel rest' with
              | .error msg => .error msg
              | .ok (v, rest2) => .ok (⟨key⟩, v, rest2)
            else .error "invalid character after object key"
          | [] => .error "unexpected end of input after object key"
      else .error "invalid character looking for object key"
    | [] => .error "unexpected end of input inside object"

/-- Remaining members of an object, given those parsed so far in
reverse order. -/
def parseObjTail : Nat → String × Json → List (String × Json) → List Char →
    Except String (Json × List Char)
  | 0, _, _, _ => .error "document too deeply nested"
  | fuel + 1, kv, acc, cs =>
    match skipWs cs with
    | c :: cs' =>
      if c = rbraceChar then .ok (.obj (jobjOf ((kv :: acc).reverse)), cs')
      else if c = ',' then
        match parseMember fuel cs' with
        | .error msg => .error msg
        | .ok (k, v, rest) => parseObjTail fuel (k, v) (kv :: acc) rest
      else .error "invalid character after object member"
    | [] => .error "unexpected end of input inside object"

end

/-- Decode one JSON document from the head of the input, as the
decoder used by `Part.JSON` does. -/
def parseOne (cs : List Char) : Except String (Json × List Char) :=
  parseVal (cs.length + 1) cs

theorem parseOne_example :
    parseOne "\x7b\"foo\":\x7b\"bar\":\"baz\"\x7d\x7d".data =
      .ok (.obj (jobjOf [("foo", .obj (jobjOf [("bar", .str "baz")]))]), []) := by
  rfl

/-! ### Part: body, metadata, error marker, structured view -/

structure Part where
  body : String
  meta : List (String × String)
  err : Option String
  jsonCache : Option Json

def NewPart (s : String) : Part :=
  { body := s, meta := [], err := none, jsonCache := none }

namespace Part

/-- Raw body bytes of a part. -/
def GetBody (p : Part) : String :=
  p.body

/-- Replace the raw body; this invalidates the structured view. -/
def SetBody (p : Part) (s : String) : Part :=
  { p with body := s, jsonCache := none }

/-- Replace the structured content: the body becomes the canonical
serialisation and the structured value is cached. -/
def SetJSON (p : Part) (v : Json) : Part :=
  { p with body := serializeJson v, jsonCache := some v }

def ErrorGet (p : Part) : Option String :=
  p.err

def ErrorSet (p : Part) (e : Option String) : Part :=
  { p with err := e }

end Part

inductive JsonError where
  | parseError (msg : String)
  | multipleDocuments
deriving DecidableEq

/-- The error text surfaced to callers. -/
def JsonError.message : JsonError → String
  | .parseError msg => msg
  | .multipleDocuments => "message contains multiple valid documents"

/-- `JSON()`: return the cached structured view if present, otherwise
decode one document from the body; trailing whitespace is permitted
but a second document is rejected with a distinct error kind. -/
def Part.JSON (p : Part) : Except JsonError Json :=
  match p.jsonCache with
  | some v => .ok v
  | none =>
    match parseOne p.body.data with
    | .error msg => .error (.parseError msg)
    | .ok (v, rest) =>
      if skipWs rest = [] then .ok v
      else
        match parseOne (skipWs rest) with
        | .ok _ => .error .multipleDocuments
        | .error msg => .error (.parseError msg)

/-- C5: after `SetJSON v` the body read back by `Get` is the canonical
serialisation of `v`, and a subsequent `JSON()` succeeds with a value
equal to `v`. -/
theorem setJSON_get_canonical_and_json_roundtrip (p : Part) (v : Json) :
    (p.SetJSON v).GetBody = serializeJson v ∧ (p.SetJSON v).JSON = .ok v :=
  ⟨rfl, rfl⟩

/-- C6: a part whose body holds one document followed by a second
top-level document (after whitespace) fails `JSON()` with the
distinguished multiple-documents error, whose literal text is fixed
and which is distinct from every ordinary parse error, while a single
document followed only by whitespace parses successfully. -/
theorem json_multiple_documents_rejected :
    (∀ (p : Part) (v v2 : Json) (rest rest2 : List Char),
      p.jsonCache = none →
      parseOne p.body.data = .ok (v, rest) →
      parseOne (skipWs rest) = .ok (v2, rest2) →
      p.JSON = .error .multipleDocuments ∧
        JsonError.message .multipleDocuments = "message contains multiple valid documents" ∧
        ∀ msg, JsonError.multipleDocuments ≠ .parseError msg) ∧
    (∀ (p : Part) (v : Json) (rest : List Char),
      p.jsonCache = none →
      parseOne p.body.data = .ok (v, rest) →
      skipWs rest = [] →
      p.JSON = .ok v) := by
  constructor
  · intro p v v2 rest rest2 hc h1 h2
    refine ⟨?_, rfl, fun msg h => by cases h⟩
    unfold Part.JSON
    rw [hc, h1]
    by_cases hr : skipWs rest = []
    · rw [hr] at h2
      exact absurd h2 (by rw [show parseOne [] = .error "unexpected end of input" from rfl]; simp)
    · simp only [if_neg hr, h2]
  · intro p v rest hc h1 hr
    unfold Part.JSON
    rw [hc, h1]
    simp [hr]

/-- Witness for C6 at the concrete payloads of the incomplete-JSON
test: the body made of two documents is rejected with the literal
multiple-documents message, and a single document with trailing
whitespace parses. -/
theorem json_multiple_documents_witness :
    (NewPart "\x7b\x7d \x7b\x7d").JSON = .error .multipleDocuments ∧
      (NewPart "   [\"foo\"]  ").JSON = .ok (.arr (jarrOf [.str "foo"])) := by
  constructor
  · exact (json_multiple_documents_rejected.1 (NewPart "\x7b\x7d \x7b\x7d")
      (.obj .nil) (.obj .nil) [' ', lbraceChar, rbraceChar] []
      rfl (by rfl) (by rfl)).1
  · exact json_multiple_documents_rejected.2 (NewPart "   [\"foo\"]  ")
      (.arr (jarrOf [.str "foo"])) [' ', ' '] rfl (by rfl) (by rfl)

/-! ### The catch processor

Modelled from the spec: `catch.go` is not among the provided sources,
only its tests.  Catch wraps each part in its own single-part batch,
runs the child pipeline only on those whose error marker is set (the
tests show the children are applied per part, not to the whole batch),
concatenates all surviving parts, clears every error marker on
success, and emits zero batches when everything was filtered out.
The child pipeline is a parameter: any function from a batch to a list
of result batches.
-/

def clearErr (p : Part) : Part :=
  { p with err := none }

def catchContribution (children : List Part → List (List Part)) (p : Part) : List Part :=
  if p.err.isSome then (children [p]).flatten else [p]

def catchProcess (children : List Part → List (List Part)) (msg : List Part) :
    List (List Part) :=
  let resParts := (msg.map (catchContribution children)).flatten
  if resParts.isEmpty then [] else [resParts.map clearErr]

theorem clearErr_of_err_none {p : Part} (h : p.err = none) : clearErr p = p := by
  cases p
  simp only [clearErr]
  simp_all

/-- C2: a part that enters catch with a clear error marker is passed
through untouched: it appears in the single emitted batch with the
same bytes, metadata and a still-clear error marker, whatever the
child pipeline does to the failed parts. -/
theorem catch_clean_part_passthrough
    (children : List Part → List (List Part)) (msg : List Part) (p : Part)
    (hp : p ∈ msg) (he : p.err = none) :
    ∃ out, catchProcess children msg = [out] ∧ p ∈ out := by
  have hcontrib : catchContribution children p = [p] := by
    simp [catchContribution, he]
  have hmem : p ∈ (msg.map (catchContribution children)).flatten := by
    rw [List.mem_flatten]
    exact ⟨[p], by rw [← hcontrib]; exact List.mem_map_of_mem _ hp, by simp⟩
  refine ⟨((msg.map (catchContribution children)).flatten).map clearErr, ?_, ?_⟩
  · unfold catchProcess
    rw [if_neg (by rw [List.isEmpty_iff]; exact List.ne_nil_of_mem hmem)]
  · rw [← clearErr_of_err_none he]
    exact List.mem_map_of_mem _ hmem

/-- Witness for C2: a batch with one failed and one clean part, a
child pipeline that deletes everything it is given; the clean part
still comes out unchanged. -/
theorem catch_clean_part_passthrough_witness :
    ∃ out, catchProcess (fun _ => [])
      [(NewPart "bar baz").ErrorSet (some "foo"), NewPart "hello foo world"] = [out] ∧
      NewPart "hello foo world" ∈ out :=
  catch_clean_part_passthrough (fun _ => []) _ (NewPart "hello foo world")
    (by simp) rfl

/-! ### The branch processor

Modelled from the spec: `branch.go` is not among the provided sources,
only its tests.  Per part, a request map either produces the branch
input, deletes the part, or fails (annotating the part and excluding
it from the branch); the child pipeline runs once on the surviving
parts; the results are re-aligned with the original indexes and a
result map merges each one back into its original part.  A mismatch
between the re-aligned result size and the outer batch length, or a
child pipeline returning zero batches, is a batch-wide error applied
to every part and then overridden by the per-part mapping errors.  The
error markers of the outer batch are not carried into the branch, and
surviving parts keep their original marker unless a mapping error
replaces it.
-/

inductive MapResult where
  | mapped (p : Part)
  | deleted
  | failed (e : String)

structure BranchModel where
  requestMap : Part → MapResult
  children : List Part → List (List Part)
  resultMap : Part → Part → Except String Part

def reqMapFailedMsg : String := "request mapping failed: "

def resMapFailedMsg : String := "result mapping failed: "

def zeroMessagesErr : String := "child processors resulted in zero messages"

/-- The literal mismatch error: `started` counts the parts of the
child pipeline result plus the request-map casualties, `finished` is
the outer batch length. -/
def mismatchErr (started finished : Nat) : String :=
  "message count from branch processors does not match request, started with " ++
    toString started ++ " messages, finished with " ++ toString finished

/-- Default part used to totalise list indexing. -/
def getPart (ps : List Part) (i : Nat) : Part :=
  ps.getD i (NewPart "")

/-- The branch inputs: results of successful request maps, with the
callers error marker stripped before entering the child pipeline. -/
def mappedParts (rm : Part → MapResult) : List Part → List Part
  | [] => []
  | p :: ps =>
    match rm p with
    | .mapped q => clearErr q :: mappedParts rm ps
    | _ => mappedParts rm ps

/-- Parts dropped before the child pipeline (deleted or failed by the
request map). -/
def droppedCount (rm : Part → MapResult) : List Part → Nat
  | [] => 0
  | p :: ps =>
    match rm p with
    | .mapped _ => droppedCount rm ps
    | _ => 1 + droppedCount rm ps

/-- The per-part request-map failures, indexed into the outer batch. -/
def reqErrs (rm : Part → MapResult) : Nat → List Part → List (Nat × String)
  | _, [] => []
  | i, p :: ps =>
    match rm p with
    | .failed e => (i, reqMapFailedMsg ++ e) :: reqErrs rm (i + 1) ps
    | _ => reqErrs rm (i + 1) ps

/-- Distribute the child pipeline results over the slots of the parts
that entered the branch, leaving `none` in the dropped slots. -/
def alignSlots (rm : Part → MapResult) : List Part → List Part → List (Option Part)
  | [], _ => []
  | p :: ps, qs =>
    match rm p with
    | .mapped _ =>
      match qs with
      | q :: qs' => some q :: alignSlots rm ps qs'
      | [] => none :: alignSlots rm ps []
    | _ => none :: alignSlots rm ps qs

/-- Request map, child pipeline and alignment; a general error aborts
the result stage. -/
def createResult (B : BranchModel) (msg : List Part) : Except String (List (Option Part)) :=
  let newParts := mappedParts B.requestMap msg
  if newParts.isEmpty then .ok (alignSlots B.requestMap msg [])
  else
    let procResults := B.children newParts
    if procResults.isEmpty then .error zeroMessagesErr
    else if procResults.flatten.length + droppedCount B.requestMap msg ≠ msg.length then
      .error (mismatchErr (procResults.flatten.length + droppedCount B.requestMap msg) msg.length)
    else .ok (alignSlots B.requestMap msg procResults.flatten)

def setErrAt : List Part → Nat → String → List Part
  | [], _, _ => []
  | p :: ps, 0, e => p.ErrorSet (some e) :: ps
  | p :: ps, i + 1, e => p :: setErrAt ps i e

def applyErrs (parts : List Part) : List (Nat × String) → List Part
  | [] => parts
  | (i, e) :: rest => applyErrs (setErrAt parts i e) rest

/-- Merge the aligned branch results back into the original parts with
the result map; failures leave the part as it was and are recorded as
indexed errors.  A merged part keeps the original error marker. -/
def overlayResult (B : BranchModel) : Nat → List Part → List (Option Part) →
    List Part × List (Nat × String)
  | _, [], _ => ([], [])
  | _, ps, [] => (ps, [])
  | i, p :: ps, none :: slots =>
    let rest := overlayResult B (i + 1) ps slots
    (p :: rest.1, rest.2)
  | i, p :: ps, some q :: slots =>
    let rest := overlayResult B (i + 1) ps slots
    match B.resultMap p q with
    | .ok merged => ({ merged with err := p.err } :: rest.1, rest.2)
    | .error e => (p :: rest.1, (i, resMapFailedMsg ++ e) :: rest.2)

/-- The branch processor: on a general error every part of the outer
batch is annotated with it and the per-part request-map errors then
override; otherwise the results are merged back and only the mapping
errors are applied. -/
def branchProcess (B : BranchModel) (msg : List Part) : List (List Part) :=
  match createResult B msg with
  | .error ge =>
    [applyErrs (msg.map fun p => p.ErrorSet (some ge)) (reqErrs B.requestMap 0 msg)]
  | .ok aligned =>
    let ov := overlayResult B 0 msg aligned
    [applyErrs ov.1 (reqErrs B.requestMap 0 msg ++ ov.2)]

theorem length_setErrAt (ps : List Part) (i : Nat) (e : String) :
    (setErrAt ps i e).length = ps.length := by
  induction ps generalizing i with
  | nil => rfl
  | cons p ps ih =>
    cases i with
    | zero => rfl
    | succ j => simp [setErrAt, ih]

theorem getPart_setErrAt_same {ps : List Part} {i : Nat} (hi : i < ps.length)
    (e : String) : getPart (setErrAt ps i e) i = (getPart ps i).ErrorSet (some e) := by
  induction ps generalizing i with
  | nil => simp at hi
  | cons p ps ih =>
    cases i with
    | zero => rfl
    | succ j =>
      simp only [setErrAt, getPart, List.getD_cons_succ]
      exact ih (by simpa using hi)

theorem getPart_setErrAt_other {ps : List Part} {i j : Nat} (hne : j ≠ i)
    (e : String) : getPart (setErrAt ps i e) j = getPart ps j := by
  induction ps generalizing i j with
  | nil => rfl
  | cons p ps ih =>
    cases i with
    | zero =>
      cases j with
      | zero => exact absurd rfl hne
      | succ k => rfl
    | succ i' =>
      cases j with
      | zero => rfl
      | succ k =>
        simp only [setErrAt, getPart, List.getD_cons_succ]
        exact ih (fun h => hne (congrArg Nat.succ h))

theorem length_applyErrs (ps : List Part) (errs : List (Nat × String)) :
    (applyErrs ps errs).length = ps.length := by
  induction errs generalizing ps with
  | nil => rfl
  | cons pe rest ih =>
    obtain ⟨i, e⟩ := pe
    simp [applyErrs, ih, length_setErrAt]

theorem getPart_applyErrs_notmem {ps : List Part} {errs : List (Nat × String)}
    {i : Nat} (h : ∀ e, (i, e) ∉ errs) :
    getPart (applyErrs ps errs) i = getPart ps i := by
  induction errs generalizing ps with
  | nil => rfl
  | cons pe rest ih =>
    obtain ⟨j, e⟩ := pe
    have hij : i ≠ j := fun hh => h e (by rw [hh]; exact List.mem_cons_self _ _)
    rw [applyErrs, ih (fun e' he' => h e' (List.mem_cons_of_mem _ he')),
      getPart_setErrAt_other hij]

theorem getPart_applyErrs_mem {ps : List Part} {errs : List (Nat × String)}
    {i : Nat} {e : String} (hpw : errs.Pairwise fun a b => a.1 ≠ b.1)
    (hmem : (i, e) ∈ errs) (hi : i < ps.length) :
    getPart (applyErrs ps errs) i = (getPart ps i).ErrorSet (some e) := by
  induction errs generalizing ps with
  | nil => simp at hmem
  | cons pe rest ih =>
    obtain ⟨j, e'⟩ := pe
    have hhead : ∀ b ∈ rest, j ≠ b.1 := (List.pairwise_cons.mp hpw).1
    have hpw' : rest.Pairwise fun a b => a.1 ≠ b.1 := (List.pairwise_cons.mp hpw).2
    rcases List.mem_cons.mp hmem with hh | htail
    · injection hh with h1 h2
      subst h1
      subst h2
      have hnot : ∀ e2, (i, e2) ∉ rest := fun e2 hmem2 => (hhead _ hmem2) rfl
      rw [applyErrs, getPart_applyErrs_notmem hnot, getPart_setErrAt_same hi]
    · have hij : i ≠ j := fun hh2 => (hhead _ htail) (by rw [hh2])
      rw [applyErrs, ih hpw' htail (by rw [length_setErrAt]; exact hi),
        getPart_setErrAt_other hij]

theorem getPart_map (f : Part → Part) (ps : List Part) (i : Nat)
    (hi : i < ps.length) : getPart (ps.map f) i = f (getPart ps i) := by
  induction ps generalizing i with
  | nil => simp at hi
  | cons p ps ih =>
    cases i with
    | zero => rfl
    | succ j =>
      simp only [List.map_cons, getPart, List.getD_cons_succ]
      exact ih j (by simpa using hi)

theorem reqErrs_mem_char (rm : Part → MapResult) (ps : List Part) :
    ∀ (s i : Nat) (e : String),
      (i, e) ∈ reqErrs rm s ps ↔
        ∃ j, j < ps.length ∧ i = s + j ∧
          ∃ e0, rm (getPart ps j) = .failed e0 ∧ e = reqMapFailedMsg ++ e0 := by
  induction ps with
  | nil => intro s i e; simp [reqErrs]
  | cons p ps ih =>
    intro s i e
    cases hrm : rm p with
    | failed e0 =>
      simp only [reqErrs, hrm, List.mem_cons]
      constructor
      · rintro (hh | htail)
        · injection hh with h1 h2
          exact ⟨0, by simp, by omega, e0, by simpa [getPart] using hrm, h2⟩
        · obtain ⟨j, hj, hij, e1, hre, hee⟩ := (ih (s + 1) i e).mp htail
          exact ⟨j + 1, by simpa using hj, by omega, e1,
            by simpa [getPart, List.getD_cons_succ] using hre, hee⟩
      · rintro ⟨j, hj, hij, e1, hre, hee⟩
        cases j with
        | zero =>
          left
          have : e1 = e0 := by
            rw [show getPart (p :: ps) 0 = p from rfl, hrm] at hre
            injection hre with h
            exact h.symm
          rw [hee, this]
          subst hij
          simp
        | succ j' =>
          right
          refine (ih (s + 1) i e).mpr ⟨j', by simpa using hj, by omega, e1, ?_, hee⟩
          simpa [getPart, List.getD_cons_succ] using hre
    | mapped q =>
      simp only [reqErrs, hrm]
      constructor
      · intro htail
        obtain ⟨j, hj, hij, e1, hre, hee⟩ := (ih (s + 1) i e).mp htail
        exact ⟨j + 1, by simpa using hj, by omega, e1,
          by simpa [getPart, List.getD_cons_succ] using hre, hee⟩
      · rintro ⟨j, hj, hij, e1, hre, hee⟩
        cases j with
        | zero =>
          rw [show getPart (p :: ps) 0 = p from rfl, hrm] at hre
          cases hre
        | succ j' =>
          refine (ih (s + 1) i e).mpr ⟨j', by simpa using hj, by omega, e1, ?_, hee⟩
          simpa [getPart, List.getD_cons_succ] using hre
    | deleted =>
      simp only [reqErrs, hrm]
      constructor
      · intro htail
        obtain ⟨j, hj, hij, e1, hre, hee⟩ := (ih (s + 1) i e).mp htail
        exact ⟨j + 1, by simpa using hj, by omega, e1,
          by simpa [getPart, List.getD_cons_succ] using hre, hee⟩
      · rintro ⟨j, hj, hij, e1, hre, hee⟩
        cases j with
        | zero =>
          rw [show getPart (p :: ps) 0 = p from rfl, hrm] at hre
          cases hre
        | succ j' =>
          refine (ih (s + 1) i e).mpr ⟨j', by simpa using hj, by omega, e1, ?_, hee⟩
          simpa [getPart, List.getD_cons_succ] using hre

theorem reqErrs_lb {rm : Part → MapResult} {ps : List Part} {s i : Nat}
    {e : String} (h : (i, e) ∈ reqErrs rm s ps) : s ≤ i := by
  obtain ⟨j, _, hij, _⟩ := (reqErrs_mem_char rm ps s i e).mp h
  omega

theorem reqErrs_pairwise (rm : Part → MapResult) (ps : List Part) :
    ∀ s, (reqErrs rm s ps).Pairwise fun a b => a.1 ≠ b.1 := by
  induction ps with
  | nil => intro s; simp [reqErrs]
  | cons p ps ih =>
    intro s
    cases hrm : rm p with
    | failed e0 =>
      simp only [reqErrs, hrm]
      refine List.pairwise_cons.mpr ⟨?_, ih (s + 1)⟩
      intro b hb
      obtain ⟨i, e⟩ := b
      have := reqErrs_lb hb
      simp only
      omega
    | mapped q => simpa only [reqErrs, hrm] using ih (s + 1)
    | deleted => simpa only [reqErrs, hrm] using ih (s + 1)

/-- C1 (amended): when the child pipeline runs and the count of its
result parts plus the request-map casualties differs from the outer
batch length, every part of the outer batch whose request map did not
fail carries the literal mismatch error (started = result count plus
casualties, finished = outer batch length), while each part whose
request map failed carries its request-mapping error instead. -/
theorem branch_count_mismatch_amended (B : BranchModel) (msg : List Part)
    (hne : mappedParts B.requestMap msg ≠ [])
    (hch : B.children (mappedParts B.requestMap msg) ≠ [])
    (hmm : (B.children (mappedParts B.requestMap msg)).flatten.length +
      droppedCount B.requestMap msg ≠ msg.length) :
    ∃ out, branchProcess B msg = [out] ∧ out.length = msg.length ∧
      ∀ i, i < msg.length →
        (∀ e, B.requestMap (getPart msg i) = .failed e →
          (getPart out i).err = some (reqMapFailedMsg ++ e)) ∧
        ((∀ e, B.requestMap (getPart msg i) ≠ .failed e) →
          (getPart out i).err = some (mismatchErr
            ((B.children (mappedParts B.requestMap msg)).flatten.length +
              droppedCount B.requestMap msg) msg.length)) := by
  set ge := mismatchErr ((B.children (mappedParts B.requestMap msg)).flatten.length +
    droppedCount B.requestMap msg) msg.length with hge
  have hcr : createResult B msg = .error ge := by
    unfold createResult
    rw [if_neg (by rw [List.isEmpty_iff]; exact hne),
      if_neg (by rw [List.isEmpty_iff]; exact hch), if_pos hmm]
  have hbp : branchProcess B msg =
      [applyErrs (msg.map fun p => p.ErrorSet (some ge)) (reqErrs B.requestMap 0 msg)] := by
    unfold branchProcess
    rw [hcr]
  refine ⟨_, hbp, ?_, ?_⟩
  · rw [length_applyErrs, List.length_map]
  · intro i hi
    have hpw := reqErrs_pairwise B.requestMap msg 0
    have hbase : getPart (msg.map fun p => p.ErrorSet (some ge)) i =
        (getPart msg i).ErrorSet (some ge) := getPart_map _ msg i hi
    constructor
    · intro e hfail
      have hmem : (i, reqMapFailedMsg ++ e) ∈ reqErrs B.requestMap 0 msg :=
        (reqErrs_mem_char B.requestMap msg 0 i _).mpr
          ⟨i, hi, by omega, e, hfail, rfl⟩
      rw [getPart_applyErrs_mem hpw hmem (by rw [List.length_map]; exact hi), hbase]
      rfl
    · intro hnofail
      have hnot : ∀ e, (i, e) ∉ reqErrs B.requestMap 0 msg := by
        intro e hmem
        obtain ⟨j, hj, hij, e0, hre, _⟩ := (reqErrs_mem_char B.requestMap msg 0 i e).mp hmem
        exact hnofail e0 (by rwa [show i = j from by omega])
      rw [getPart_applyErrs_notmem hnot, hbase]
      rfl

/-- Concrete five-part batch with bodies "0" to "4". -/
def branchCexMsg : List Part :=
  [NewPart "0", NewPart "1", NewPart "2", NewPart "3", NewPart "4"]

/-- Branch whose request map fails on body "3" and whose child
pipeline drops body "2": four parts enter the branch, three come
back. -/
def branchCex : BranchModel where
  requestMap p := if p.body = "3" then .failed "foo" else .mapped p
  children ps := [ps.filter fun p => p.body ≠ "2"]
  resultMap orig _ := .ok orig

/-- Branch whose request map keeps all five parts and whose child
pipeline drops body "2": five parts enter, four come back. -/
def branchCex2 : BranchModel where
  requestMap p := .mapped p
  children ps := [ps.filter fun p => p.body ≠ "2"]
  resultMap orig _ := .ok orig

/-- C1 counterexample: at the five-part batch with a request-map
failure on part 3 and a child pipeline dropping one part, part 3
carries the request-mapping error rather than any mismatch error, and
the mismatch error on the other parts says started-with-4 and
finished-with-5 while the claim predicts started-with-4 and
finished-with-3 (the child pipeline returned 3 parts); on the second
branch, with nothing dropped by the request map, the code says
started-with-4 although 5 parts survived the request map. -/
theorem branch_count_mismatch_counterexample :
    (getPart ((branchProcess branchCex branchCexMsg).headD []) 3).err =
      some (reqMapFailedMsg ++ "foo") ∧
    reqMapFailedMsg ++ "foo" ≠ mismatchErr 4 3 ∧
    (getPart ((branchProcess branchCex branchCexMsg).headD []) 0).err =
      some (mismatchErr 4 5) ∧
    mismatchErr 4 5 ≠ mismatchErr 4 3 ∧
    (getPart ((branchProcess branchCex2 branchCexMsg).headD []) 0).err =
      some (mismatchErr 4 5) ∧
    mismatchErr 4 5 ≠ mismatchErr 5 5 := by
  refine ⟨rfl, by decide, rfl, by decide, rfl, by decide⟩

/-- Witness for C1 (amended) at the first concrete branch. -/
theorem branch_count_mismatch_witness :
    ∃ out, branchProcess branchCex branchCexMsg = [out] ∧
      out.length = branchCexMsg.length ∧
      ∀ i, i < branchCexMsg.length →
        (∀ e, branchCex.requestMap (getPart branchCexMsg i) = .failed e →
          (getPart out i).err = some (reqMapFailedMsg ++ e)) ∧
        ((∀ e, branchCex.requestMap (getPart branchCexMsg i) ≠ .failed e) →
          (getPart out i).err = some (mismatchErr
            ((branchCex.children (mappedParts branchCex.requestMap branchCexMsg)).flatten.length +
              droppedCount branchCex.requestMap branchCexMsg) branchCexMsg.length)) :=
  branch_count_mismatch_amended branchCex branchCexMsg
    (List.length_pos.mp (by decide)) (List.length_pos.mp (by decide)) (by decide)

/-! ### Manager resource registry

Modelled from the spec: the manager sources are not provided, only
their tests.  Construction validates every resource label per kind
(empty labels and duplicates within a kind are fatal); `Access` looks
a label up in the registry of already built resources and fails with
the literal locate error when it is absent, without invoking the
callback and without blocking, which is also the behaviour seen by a
constructor referring to a resource that has not been built yet.
-/

inductive ResourceKind where
  | cache
  | rateLimit
  | processor
  | input
  | output
deriving DecidableEq

def kindName : ResourceKind → String
  | .cache => "cache"
  | .rateLimit => "rate limit"
  | .processor => "processor"
  | .input => "input"
  | .output => "output"

/-- A single-quote character, written by code point. -/
def squote : String := String.singleton (Char.ofNat 39)

def emptyLabelErr (kind : String) : String :=
  kind ++ " resource has an empty label"

def collisionErr (kind lbl : String) : String :=
  kind ++ " resource label " ++ squote ++ lbl ++ squote ++
    " collides with a previously defined resource"

/-- The labels declared for each resource kind in a manager
configuration. -/
structure ResourceConfig where
  caches : List String
  rateLimits : List String
  processors : List String
  inputs : List String
  outputs : List String

def labelsOf (c : ResourceConfig) : ResourceKind → List String
  | .cache => c.caches
  | .rateLimit => c.rateLimits
  | .processor => c.processors
  | .input => c.inputs
  | .output => c.outputs

/-- Scan the declared labels of one kind left to right against the
already seen ones, failing on the first empty or colliding label. -/
def checkLabels (kind : String) : List String → List String → Except String Unit
  | _, [] => .ok ()
  | seen, l :: ls =>
    if l = "" then .error (emptyLabelErr kind)
    else if l ∈ seen then .error (collisionErr kind l)
    else checkLabels kind (l :: seen) ls

def kindList : List ResourceKind :=
  [.cache, .rateLimit, .processor, .input, .output]

def checkAllKinds (c : ResourceConfig) : List ResourceKind → Except String Unit
  | [] => .ok ()
  | k :: ks =>
    match checkLabels (kindName k) [] (labelsOf c k) with
    | .error e => .error e
    | .ok _ => checkAllKinds c ks

/-- The manager after successful construction: the registered labels
per kind. -/
structure Manager where
  resources : ResourceKind → List String

/-- Manager construction: validate the labels of every resource kind,
then register them. -/
def NewManager (c : ResourceConfig) : Except String Manager :=
  match checkAllKinds c kindList with
  | .error e => .error e
  | .ok _ => .ok ⟨labelsOf c⟩

theorem checkLabels_append (kind : String) (xs : List String) :
    ∀ (seen rest : List String), "" ∉ xs → xs.Nodup → (∀ l ∈ xs, l ∉ seen) →
      checkLabels kind seen (xs ++ rest) = checkLabels kind (xs.reverse ++ seen) rest := by
  induction xs with
  | nil => intro seen rest _ _ _; simp
  | cons x xs ih =>
    intro seen rest hemp hnd hdis
    have hx : ¬x = "" := fun h => hemp (by rw [← h]; exact List.mem_cons_self _ _)
    have hxs : x ∉ seen := hdis x (List.mem_cons_self _ _)
    rw [List.cons_append, checkLabels, if_neg hx, if_neg hxs]
    rw [ih (x :: seen) rest (fun h => hemp (List.mem_cons_of_mem _ h))
      (List.nodup_cons.mp hnd).2 ?_]
    · simp
    · intro l hl hmem
      rcases List.mem_cons.mp hmem with h | h
      · exact (List.nodup_cons.mp hnd).1 (h ▸ hl)
      · exact hdis l (List.mem_cons_of_mem _ hl) h

theorem checkLabels_collision (kind : String) (xs : List String) (l : String)
    (ys : List String) (hemp : "" ∉ xs) (hl : l ≠ "") (hnd : xs.Nodup)
    (hmem : l ∈ xs) :
    checkLabels kind [] (xs ++ l :: ys) = .error (collisionErr kind l) := by
  rw [checkLabels_append kind xs [] (l :: ys) hemp hnd (by simp)]
  rw [checkLabels, if_neg hl,
    if_pos (by rw [List.append_nil]; exact List.mem_reverse.mpr hmem)]

theorem checkLabels_emptyLabel (kind : String) (xs ys : List String)
    (hemp : "" ∉ xs) (hnd : xs.Nodup) :
    checkLabels kind [] (xs ++ "" :: ys) = .error (emptyLabelErr kind) := by
  rw [checkLabels_append kind xs [] ("" :: ys) hemp hnd (by simp)]
  rw [checkLabels, if_pos rfl]

theorem checkLabels_ok (kind : String) (xs : List String) :
    ∀ seen, "" ∉ xs → xs.Nodup → (∀ l ∈ xs, l ∉ seen) →
      checkLabels kind seen xs = .ok () := by
  intro seen hemp hnd hdis
  have := checkLabels_append kind xs seen [] hemp hnd hdis
  rw [List.append_nil] at this
  rw [this, checkLabels]

/-- Labels of one kind are well formed: none empty, no duplicates. -/
def labelsOk (ls : List String) : Prop :=
  "" ∉ ls ∧ ls.Nodup

theorem checkLabels_ok_of_labelsOk {kind : String} {ls : List String}
    (h : labelsOk ls) : checkLabels kind [] ls = .ok () :=
  checkLabels_ok kind ls [] h.1 h.2 (by simp)

theorem newManager_error_of_kind_error (c : ResourceConfig) (k : ResourceKind)
    (e : String) (hothers : ∀ k', k' ≠ k → labelsOk (labelsOf c k'))
    (he : checkLabels (kindName k) [] (labelsOf c k) = .error e) :
    NewManager c = .error e := by
  have hok : ∀ k', k' ≠ k → checkLabels (kindName k') [] (labelsOf c k') = .ok () :=
    fun k' hk' => checkLabels_ok_of_labelsOk (hothers k' hk')
  cases k with
  | cache =>
    simp only [NewManager, kindList, checkAllKinds, he]
  | rateLimit =>
    simp only [NewManager, kindList, checkAllKinds,
      hok .cache (by intro h; cases h), he]
  | processor =>
    simp only [NewManager, kindList, checkAllKinds,
      hok .cache (by intro h; cases h), hok .rateLimit (by intro h; cases h), he]
  | input =>
    simp only [NewManager, kindList, checkAllKinds,
      hok .cache (by intro h; cases h), hok .rateLimit (by intro h; cases h),
      hok .processor (by intro h; cases h), he]
  | output =>
    simp only [NewManager, kindList, checkAllKinds,
      hok .cache (by intro h; cases h), hok .rateLimit (by intro h; cases h),
      hok .processor (by intro h; cases h), hok .input (by intro h; cases h), he]

/-- C7: for every resource kind, when the other kinds are well formed,
a duplicated label within the kind fails manager construction with the
literal collision error naming the kind and the label, and an empty
label fails it with the literal empty-label error naming the kind
(first offence wins, so the prefix before the offending label is
required clean). -/
theorem manager_label_errors (c : ResourceConfig) (k : ResourceKind)
    (hothers : ∀ k', k' ≠ k → labelsOk (labelsOf c k')) :
    (∀ xs l ys, labelsOf c k = xs ++ l :: ys → l ∈ xs → l ≠ "" → "" ∉ xs →
      xs.Nodup → NewManager c = .error (collisionErr (kindName k) l)) ∧
    (∀ xs ys, labelsOf c k = xs ++ "" :: ys → "" ∉ xs → xs.Nodup →
      NewManager c = .error (emptyLabelErr (kindName k))) := by
  constructor
  · intro xs l ys hsplit hmem hl hemp hnd
    refine newManager_error_of_kind_error c k _ hothers ?_
    rw [hsplit]
    exact checkLabels_collision (kindName k) xs l ys hemp hl hnd hmem
  · intro xs ys hsplit hemp hnd
    refine newManager_error_of_kind_error c k _ hothers ?_
    rw [hsplit]
    exact checkLabels_emptyLabel (kindName k) xs ys hemp hnd

/-- Witness for C7 at the cache configurations of the manager list
tests: two caches both labelled "foo" collide, and a cache with an
empty label is rejected. -/
theorem manager_label_errors_witness :
    NewManager ⟨["foo", "foo"], [], [], [], []⟩ =
      .error (collisionErr "cache" "foo") ∧
    NewManager ⟨[""], [], [], [], []⟩ = .error (emptyLabelErr "cache") := by
  constructor
  · exact (manager_label_errors ⟨["foo", "foo"], [], [], [], []⟩ .cache
      (by intro k' hk'; cases k' <;> first | exact absurd rfl hk' | simp [labelsOk, labelsOf])).1
      ["foo"] "foo" [] rfl (by simp) (by simp) (by simp) (by simp)
  · exact (manager_label_errors ⟨[""], [], [], [], []⟩ .cache
      (by intro k' hk'; cases k' <;> first | exact absurd rfl hk' | simp [labelsOk, labelsOf])).2
      [] [] rfl (by simp) (by simp)

/-! ### Deferred resource access -/

def unableToLocate (lbl : String) : String :=
  "unable to locate resource: " ++ lbl

/-- Look a label up in the registry of built resources. -/
def lookupRes {ρ : Type} : List (String × ρ) → String → Option ρ
  | [], _ => none
  | (l, r) :: rest, lbl => if lbl = l then some r else lookupRes rest lbl

/-- `Access<Kind>`: find the resource and hand it to the callback;
a missing label is an immediate error. -/
def accessResource {ρ α : Type} (reg : List (String × ρ)) (lbl : String)
    (fn : ρ → α) : Except String α :=
  match lookupRes reg lbl with
  | none => .error (unableToLocate lbl)
  | some r => .ok (fn r)

/-- The registry visible while the resource at position `j` of the
declaration list is being constructed: exactly the previously built
resources. -/
def registryDuring {ρ : Type} (resources : List (String × ρ)) (j : Nat) :
    List (String × ρ) :=
  resources.take j

theorem lookupRes_eq_none_of_not_mem {ρ : Type} {reg : List (String × ρ)}
    {lbl : String} (h : lbl ∉ reg.map Prod.fst) : lookupRes reg lbl = none := by
  induction reg with
  | nil => rfl
  | cons hd rest ih =>
    obtain ⟨l, r⟩ := hd
    rw [lookupRes, if_neg (fun hh => h (by rw [hh]; exact List.mem_cons_self _ _))]
    exact ih fun hh => h (List.mem_cons_of_mem _ hh)

/-- C8: accessing a label with no registered resource of the requested
kind returns exactly the locate error, independently of the callback
(which is never invoked); in particular a constructor that references
a resource declared later sees exactly this error, because the
registry it can see holds only the resources built before it. -/
theorem access_missing_resource {ρ α : Type} :
    (∀ (reg : List (String × ρ)) (lbl : String), lookupRes reg lbl = none →
      ∀ fn fn' : ρ → α,
        accessResource reg lbl fn = .error (unableToLocate lbl) ∧
        accessResource reg lbl fn = accessResource reg lbl fn') ∧
    (∀ (resources : List (String × ρ)) (j : Nat) (lbl : String),
      lbl ∉ (resources.take j).map Prod.fst →
      ∀ fn : ρ → α,
        accessResource (registryDuring resources j) lbl fn =
          .error (unableToLocate lbl)) := by
  constructor
  · intro reg lbl hnone fn fn'
    unfold accessResource
    rw [hnone]
    exact ⟨rfl, rfl⟩
  · intro resources j lbl hnot fn
    unfold accessResource registryDuring
    rw [lookupRes_eq_none_of_not_mem hnot]

/-- Witness for C8, mirroring the initialization-ordering test: while
the input resource (position 0) is being built, accessing the rate
limit declared at position 2 fails with the literal locate error, and
on a built registry a lookup of an unknown label "baz" fails the same
way whatever the callback. -/
theorem access_missing_resource_witness :
    accessResource (registryDuring [("fooinput", 0), ("fooproc", 1),
      ("fooratelimit", 2)] 0) "fooratelimit" (fun r => r) =
      .error "unable to locate resource: fooratelimit" ∧
    accessResource [("foo", 0), ("bar", 1)] "baz" (fun r => r + 1) =
      .error "unable to locate resource: baz" :=
  ⟨(access_missing_resource (ρ := Nat) (α := Nat)).2 _ 0 "fooratelimit"
      (by simp) (fun r => r),
    ((access_missing_resource (ρ := Nat) (α := Nat)).1 [("foo", 0), ("bar", 1)]
      "baz" (by simp [lookupRes]) (fun r => r + 1) (fun r => r + 1)).1⟩

/-! ### Part aliasing: shared data cells, contexts and copies

Modelled from the spec: part internals are not in the provided
sources.  A Go part is a handle holding a pointer to a data cell
(body, metadata, error) plus a per-handle context; `WithContext`
returns a new handle on the same cell, while `Copy` allocates a fresh
cell with copied content (the body bytes are shared but `SetBody`
replaces them wholesale, so the sharing is unobservable).  The heap of
cells is made explicit as a list indexed by allocation order.
-/

structure PartData where
  body : String
  meta : List (String × String)
  err : Option String

def defaultPartData : PartData :=
  { body := "", meta := [], err := none }

def cellGet (s : List PartData) (r : Nat) : PartData :=
  s.getD r defaultPartData

def cellSet : List PartData → Nat → PartData → List PartData
  | [], _, _ => []
  | _ :: cs, 0, d => d :: cs
  | c :: cs, i + 1, d => c :: cellSet cs i d

/-- A part handle: which cell it points at, and its context. -/
structure PartRef where
  ref : Nat
  ctx : Nat

/-- `WithContext`: a new handle on the same data cell. -/
def withContext (p : PartRef) (c : Nat) : PartRef :=
  { p with ctx := c }

def refErrorGet (s : List PartData) (p : PartRef) : Option String :=
  (cellGet s p.ref).err

def refErrorSet (s : List PartData) (p : PartRef) (e : Option String) :
    List PartData :=
  cellSet s p.ref { cellGet s p.ref with err := e }

def refBodyGet (s : List PartData) (p : PartRef) : String :=
  (cellGet s p.ref).body

def refBodySet (s : List PartData) (p : PartRef) (b : String) : List PartData :=
  cellSet s p.ref { cellGet s p.ref with body := b }

def metaUpdate (k v : String) : List (String × String) → List (String × String)
  | [] => [(k, v)]
  | (k', v') :: rest =>
    if k = k' then (k, v) :: rest else (k', v') :: metaUpdate k v rest

def metaFind (k : String) : List (String × String) → String
  | [] => ""
  | (k', v') :: rest => if k = k' then v' else metaFind k rest

def refMetaSet (s : List PartData) (p : PartRef) (k v : String) : List PartData :=
  cellSet s p.ref { cellGet s p.ref with meta := metaUpdate k v (cellGet s p.ref).meta }

def refMetaGet (s : List PartData) (p : PartRef) (k : String) : String :=
  metaFind k (cellGet s p.ref).meta

/-- `Copy` of one part: allocate a fresh cell holding the copied
content; the handle keeps its context. -/
def copyPart (s : List PartData) (p : PartRef) : List PartData × PartRef :=
  (s ++ [cellGet s p.ref], { ref := s.length, ctx := p.ctx })

/-- Handles of the copied batch: one fresh cell per part, allocated
consecutively. -/
def copyRefs (base : Nat) : List PartRef → List PartRef
  | [] => []
  | p :: ps => { ref := base, ctx := p.ctx } :: copyRefs (base + 1) ps

/-- Cell contents of the copied batch. -/
def copyCells (s : List PartData) : List PartRef → List PartData
  | [] => []
  | p :: ps => cellGet s p.ref :: copyCells s ps

/-- `Copy` of a batch: append one fresh cell per part. -/
def copyBatch (s : List PartData) (b : List PartRef) :
    List PartData × List PartRef :=
  (s ++ copyCells s b, copyRefs s.length b)

/-- Default handle used to totalise indexing into a batch. -/
def getRef (ps : List PartRef) (i : Nat) : PartRef :=
  ps.getD i { ref := 0, ctx := 0 }

theorem length_cellSet (s : List PartData) (r : Nat) (d : PartData) :
    (cellSet s r d).length = s.length := by
  induction s generalizing r with
  | nil => rfl
  | cons c cs ih =>
    cases r with
    | zero => rfl
    | succ r' => simp [cellSet, ih]

theorem cellGet_cellSet_same {s : List PartData} {r : Nat} (hr : r < s.length)
    (d : PartData) : cellGet (cellSet s r d) r = d := by
  induction s generalizing r with
  | nil => simp at hr
  | cons c cs ih =>
    cases r with
    | zero => rfl
    | succ r' =>
      simp only [cellSet, cellGet, List.getD_cons_succ]
      exact ih (by simpa using hr)

theorem cellGet_cellSet_other {s : List PartData} {r r' : Nat} (hne : r' ≠ r)
    (d : PartData) : cellGet (cellSet s r d) r' = cellGet s r' := by
  induction s generalizing r r' with
  | nil => rfl
  | cons c cs ih =>
    cases r with
    | zero =>
      cases r' with
      | zero => exact absurd rfl hne
      | succ k => rfl
    | succ rr =>
      cases r' with
      | zero => rfl
      | succ k =>
        simp only [cellSet, cellGet, List.getD_cons_succ]
        exact ih (fun h => hne (congrArg Nat.succ h))

theorem cellGet_append_left {s : List PartData} {r : Nat} (hr : r < s.length)
    (t : List PartData) : cellGet (s ++ t) r = cellGet s r := by
  induction s generalizing r with
  | nil => simp at hr
  | cons c cs ih =>
    cases r with
    | zero => rfl
    | succ r' =>
      simp only [List.cons_append, cellGet, List.getD_cons_succ]
      exact ih (by simpa using hr)

theorem getRef_copyRefs (b : List PartRef) :
    ∀ (base i : Nat), i < b.length →
      getRef (copyRefs base b) i = { ref := base + i, ctx := (getRef b i).ctx } := by
  induction b with
  | nil => intro base i hi; simp at hi
  | cons p ps ih =>
    intro base i hi
    cases i with
    | zero => simp [copyRefs, getRef]
    | succ j =>
      simp only [copyRefs, getRef, List.getD_cons_succ]
      rw [show base + (j + 1) = (base + 1) + j from by omega]
      exact ih (base + 1) j (by simpa using hi)

/-- C9: a handle derived with `WithContext` shares the error marker
with the original (an error set through either is read through both),
while a handle obtained with `Copy` has an independent marker (setting
through either side is invisible through the other). -/
theorem withContext_shares_error_copy_independent
    (s : List PartData) (p1 : PartRef) (c : Nat) (hp : p1.ref < s.length)
    (e e' : String) :
    (refErrorGet (refErrorSet s p1 (some e)) (withContext p1 c) = some e ∧
      refErrorGet (refErrorSet s (withContext p1 c) (some e)) p1 = some e) ∧
    (refErrorGet (refErrorSet (copyPart s p1).1 (copyPart s p1).2 (some e'))
        p1 = refErrorGet (copyPart s p1).1 p1 ∧
      refErrorGet (refErrorSet (copyPart s p1).1 p1 (some e'))
        (copyPart s p1).2 = refErrorGet (copyPart s p1).1 (copyPart s p1).2) := by
  have hctx : (withContext p1 c).ref = p1.ref := rfl
  have hcopyref : (copyPart s p1).2.ref = s.length := rfl
  have hlen2 : p1.ref < (copyPart s p1).1.length := by
    simp only [copyPart, List.length_append, List.length_singleton]
    omega
  constructor
  · constructor
    · unfold refErrorGet refErrorSet
      rw [hctx, cellGet_cellSet_same hp]
    · unfold refErrorGet refErrorSet
      rw [hctx, cellGet_cellSet_same hp]
  · constructor
    · unfold refErrorGet refErrorSet
      rw [cellGet_cellSet_other (by rw [hcopyref]; omega)]
    · unfold refErrorGet refErrorSet
      rw [cellGet_cellSet_other (by rw [hcopyref]; omega)]

/-- Witness for C9 at a one-cell heap. -/
theorem withContext_shares_error_copy_independent_witness :
    (refErrorGet (refErrorSet [defaultPartData] ⟨0, 0⟩ (some "err1"))
        (withContext ⟨0, 0⟩ 7) = some "err1" ∧
      refErrorGet (refErrorSet [defaultPartData] (withContext ⟨0, 0⟩ 7) (some "err1"))
        ⟨0, 0⟩ = some "err1") ∧
    (refErrorGet (refErrorSet (copyPart [defaultPartData] ⟨0, 0⟩).1
        (copyPart [defaultPartData] ⟨0, 0⟩).2 (some "err3")) ⟨0, 0⟩ =
        refErrorGet (copyPart [defaultPartData] ⟨0, 0⟩).1 ⟨0, 0⟩ ∧
      refErrorGet (refErrorSet (copyPart [defaultPartData] ⟨0, 0⟩).1 ⟨0, 0⟩
        (some "err3")) (copyPart [defaultPartData] ⟨0, 0⟩).2 =
        refErrorGet (copyPart [defaultPartData] ⟨0, 0⟩).1
          (copyPart [defaultPartData] ⟨0, 0⟩).2) :=
  withContext_shares_error_copy_independent [defaultPartData] ⟨0, 0⟩ 7
    (by decide) "err1" "err3"

/-- C4: after a shallow batch copy, mutating part `i` of the copy
(body, a metadata key, or the error marker) leaves part `i` of the
original batch observably unchanged, and mutating part `i` of the
original leaves part `i` of the copy unchanged. -/
theorem copy_batch_independent (s : List PartData) (b : List PartRef)
    (hvalid : ∀ p ∈ b, p.ref < s.length) (i : Nat) (hi : i < b.length)
    (nb : String) (k v : String) (e : Option String) :
    (refBodyGet (refBodySet (copyBatch s b).1 (getRef (copyBatch s b).2 i) nb)
        (getRef b i) = refBodyGet (copyBatch s b).1 (getRef b i) ∧
      refMetaGet (refMetaSet (copyBatch s b).1 (getRef (copyBatch s b).2 i) k v)
        (getRef b i) k = refMetaGet (copyBatch s b).1 (getRef b i) k ∧
      refErrorGet (refErrorSet (copyBatch s b).1 (getRef (copyBatch s b).2 i) e)
        (getRef b i) = refErrorGet (copyBatch s b).1 (getRef b i)) ∧
    (refBodyGet (refBodySet (copyBatch s b).1 (getRef b i) nb)
        (getRef (copyBatch s b).2 i) =
        refBodyGet (copyBatch s b).1 (getRef (copyBatch s b).2 i) ∧
      refMetaGet (refMetaSet (copyBatch s b).1 (getRef b i) k v)
        (getRef (copyBatch s b).2 i) k =
        refMetaGet (copyBatch s b).1 (getRef (copyBatch s b).2 i) k ∧
      refErrorGet (refErrorSet (copyBatch s b).1 (getRef b i) e)
        (getRef (copyBatch s b).2 i) =
        refErrorGet (copyBatch s b).1 (getRef (copyBatch s b).2 i)) := by
  have hmem : getRef b i ∈ b := by
    unfold getRef
    rw [List.getD_eq_getElem _ _ hi]
    exact List.getElem_mem hi
  have horig : (getRef b i).ref < s.length := hvalid _ hmem
  have hcopy : (getRef (copyBatch s b).2 i).ref = s.length + i := by
    show (getRef (copyRefs s.length b) i).ref = s.length + i
    rw [getRef_copyRefs b s.length i hi]
  have hne1 : (getRef b i).ref ≠ (getRef (copyBatch s b).2 i).ref := by
    rw [hcopy]; omega
  have hne2 : (getRef (copyBatch s b).2 i).ref ≠ (getRef b i).ref := by
    rw [hcopy]; omega
  refine ⟨⟨?_, ?_, ?_⟩, ⟨?_, ?_, ?_⟩⟩
  · unfold refBodyGet refBodySet
    rw [cellGet_cellSet_other hne1]
  · unfold refMetaGet refMetaSet
    rw [cellGet_cellSet_other hne1]
  · unfold refErrorGet refErrorSet
    rw [cellGet_cellSet_other hne1]
  · unfold refBodyGet refBodySet
    rw [cellGet_cellSet_other hne2]
  · unfold refMetaGet refMetaSet
    rw [cellGet_cellSet_other hne2]
  · unfold refErrorGet refErrorSet
    rw [cellGet_cellSet_other hne2]

/-- Witness for C4 at a two-part batch over a two-cell heap,
mirroring the message copy test (mutating the copy at index 0). -/
theorem copy_batch_independent_witness :
    (refBodyGet (refBodySet (copyBatch [⟨"foo", [("foo", "bar")], none⟩,
        ⟨"bar", [], none⟩] [⟨0, 0⟩, ⟨1, 0⟩]).1
        (getRef (copyBatch [⟨"foo", [("foo", "bar")], none⟩,
          ⟨"bar", [], none⟩] [⟨0, 0⟩, ⟨1, 0⟩]).2 0) "baz")
        (getRef [⟨0, 0⟩, ⟨1, 0⟩] 0) =
      refBodyGet (copyBatch [⟨"foo", [("foo", "bar")], none⟩,
        ⟨"bar", [], none⟩] [⟨0, 0⟩, ⟨1, 0⟩]).1 (getRef [⟨0, 0⟩, ⟨1, 0⟩] 0)) :=
  (copy_batch_independent [⟨"foo", [("foo", "bar")], none⟩, ⟨"bar", [], none⟩]
    [⟨0, 0⟩, ⟨1, 0⟩]
    (by intro p hp; rcases List.mem_cons.mp hp with h | h
        · rw [h]; decide
        · rcases List.mem_cons.mp h with h2 | h2
          · rw [h2]; decide
          · simp at h2)
    0 (by decide) "baz" "foo" "bar2" (some "err")).1.1

/-! ### The output Batcher loop

The loop body is embedded from the `Batcher.loop` source (the batching
output wrapper): each iteration reacts to one event — an incoming
transaction, the upstream channel closing, the period timer firing, or
the shutdown signal — computes whether to flush, and when the policy
flush yields a batch sends exactly one downstream transaction with it.
The batching policy itself is modelled from the spec: `Add` appends
the part and reports whether the count, byte-size or check trigger
fired; `Flush` hands back the accumulated parts and resets, yielding
nothing (Go `nil`) when nothing was accumulated.
-/

structure Policy where
  count : Nat
  byteSize : Nat
  check : Part → Bool

structure PolicyState where
  parts : List Part

/-- Modelled from the spec: `Add(part)` appends and reports whether a
trigger fired. -/
def policyAdd (pol : Policy) (st : PolicyState) (p : Part) : PolicyState × Bool :=
  let st' : PolicyState := ⟨st.parts ++ [p]⟩
  (st',
    (pol.count != 0 && decide (pol.count ≤ st'.parts.length)) ||
    (pol.byteSize != 0 && decide (pol.byteSize ≤ (st'.parts.map (·.body.length)).sum)) ||
    pol.check p)

/-- Modelled from the spec: `Flush` returns the accumulated batch and
resets; with nothing accumulated it returns nothing (Go `nil`). -/
def policyFlush (st : PolicyState) : Option (List Part) × PolicyState :=
  if st.parts.isEmpty then (none, ⟨[]⟩) else (some st.parts, ⟨[]⟩)

def policyCount (st : PolicyState) : Nat :=
  st.parts.length

/-- One wake-up of the batcher loop. -/
inductive BatcherEvent where
  | msg (parts : List Part)
  | inputClosed
  | timer
  | shutdown

structure BatcherState where
  policy : PolicyState
  pending : List (List Part)
  sent : List (List Part)
  done : Bool

def initialBatcherState : BatcherState :=
  { policy := ⟨[]⟩, pending := [], sent := [], done := false }

/-- The select arm of one `Batcher.loop` iteration: the updated state
(policy feed and pending tracking), whether to flush, and whether the
loop exits after this iteration. -/
def batcherSelect (pol : Policy) (st : BatcherState) :
    BatcherEvent → BatcherState × Bool × Bool
  | .msg parts =>
    let added := parts.foldl
      (fun (acc : PolicyState × Bool) p =>
        let step := policyAdd pol acc.1 p
        (step.1, acc.2 || step.2))
      (st.policy, false)
    ({ st with policy := added.1, pending := st.pending ++ [parts] },
      added.2, false)
  | .inputClosed =>
    if policyCount st.policy > 0 then (st, true, true) else (st, false, true)
  | .timer => (st, true, false)
  | .shutdown => (st, true, true)

/-- The tail of one iteration: flush if requested, and send one
downstream transaction only when the policy yields a batch. -/
def batcherEmit (st1 : BatcherState) (flush exitAfter : Bool) : BatcherState :=
  if flush = false then { st1 with done := exitAfter }
  else
    match policyFlush st1.policy with
    | (none, pst) => { st1 with policy := pst, done := exitAfter }
    | (some batch, pst) =>
      { st1 with policy := pst, pending := [], done := exitAfter, sent := st1.sent ++ [batch] }

/-- One iteration of `Batcher.loop`. -/
def batcherStep (pol : Policy) (st : BatcherState) (ev : BatcherEvent) :
    BatcherState :=
  if st.done then st
  else
    let sel := batcherSelect pol st ev
    batcherEmit sel.1 sel.2.1 sel.2.2

def batcherRun (pol : Policy) (events : List BatcherEvent) : BatcherState :=
  events.foldl (batcherStep pol) initialBatcherState

theorem policyFlush_some_ne_nil {st : PolicyState} {b : List Part}
    {pst : PolicyState} (h : policyFlush st = (some b, pst)) : b ≠ [] := by
  unfold policyFlush at h
  by_cases he : st.parts.isEmpty
  · rw [if_pos he] at h
    cases h
  · rw [if_neg he] at h
    injection h with h1 _
    injection h1 with h2
    rw [← h2]
    exact fun hh => he (by rw [hh]; rfl)

theorem batcherSelect_sent (pol : Policy) (st : BatcherState)
    (ev : BatcherEvent) : (batcherSelect pol st ev).1.sent = st.sent := by
  cases ev with
  | msg parts => rfl
  | inputClosed =>
    unfold batcherSelect
    by_cases hc : policyCount st.policy > 0
    · rw [if_pos hc]
    · rw [if_neg hc]
  | timer => rfl
  | shutdown => rfl

theorem batcherEmit_sent (st1 : BatcherState) (flush exitAfter : Bool) :
    (batcherEmit st1 flush exitAfter).sent = st1.sent ∨
      ∃ b, b ≠ [] ∧ (batcherEmit st1 flush exitAfter).sent = st1.sent ++ [b] := by
  unfold batcherEmit
  by_cases hfl : flush = false
  · rw [if_pos hfl]
    exact .inl rfl
  · rw [if_neg hfl]
    match hf : policyFlush st1.policy with
    | (none, pst) => exact .inl rfl
    | (some batch, pst) =>
      exact .inr ⟨batch, policyFlush_some_ne_nil hf, rfl⟩

theorem batcherStep_sent (pol : Policy) (st : BatcherState) (ev : BatcherEvent) :
    (batcherStep pol st ev).sent = st.sent ∨
      ∃ b, b ≠ [] ∧ (batcherStep pol st ev).sent = st.sent ++ [b] := by
  unfold batcherStep
  by_cases hd : st.done
  · rw [if_pos hd]
    exact .inl rfl
  · rw [if_neg hd]
    rcases batcherEmit_sent (batcherSelect pol st ev).1
        (batcherSelect pol st ev).2.1 (batcherSelect pol st ev).2.2 with h | ⟨b, hb, h⟩
    · rw [h, batcherSelect_sent]
      exact .inl rfl
    · rw [h, batcherSelect_sent]
      exact .inr ⟨b, hb, rfl⟩

theorem batcherRun_inv (pol : Policy) (events : List BatcherEvent) :
    ∀ (st : BatcherState), (∀ b ∈ st.sent, b ≠ []) →
      ∀ b ∈ (events.foldl (batcherStep pol) st).sent, b ≠ [] := by
  induction events with
  | nil => intro st hst; exact hst
  | cons ev evs ih =>
    intro st hst
    rw [List.foldl_cons]
    refine ih (batcherStep pol st ev) ?_
    rcases batcherStep_sent pol st ev with h | ⟨b0, hb0, h⟩
    · rw [h]; exact hst
    · rw [h]
      intro b hb
      rcases List.mem_append.mp hb with hmem | hmem
      · exact hst b hmem
      · rw [List.mem_singleton.mp hmem]
        exact hb0

/-- C10: the batcher never sends an empty transaction downstream —
whatever the policy configuration and event sequence, every
transaction handed to the child output carries at least one part
(when a triggered flush finds nothing accumulated, nothing is
emitted). -/
theorem batcher_never_sends_empty (pol : Policy) (events : List BatcherEvent) :
    ∀ b ∈ (batcherRun pol events).sent, b ≠ [] := by
  unfold batcherRun
  exact batcherRun_inv pol events initialBatcherState
    (fun b hb => absurd hb (List.not_mem_nil b))

/-- Witness for C10: a run that receives one single-part transaction
and then shuts down flushes exactly that part, a nonempty batch; a
plain timer tick with nothing accumulated sends nothing. -/
theorem batcher_never_sends_empty_witness :
    ([NewPart "hello world"] : List Part) ≠ [] ∧
      (batcherRun ⟨0, 0, fun _ => false⟩ [.timer]).sent = [] :=
  ⟨batcher_never_sends_empty ⟨0, 0, fun _ => false⟩
      [.msg [NewPart "hello world"], .shutdown] [NewPart "hello world"]
      (by rw [show (batcherRun ⟨0, 0, fun _ => false⟩
        [.msg [NewPart "hello world"], .shutdown]).sent =
          [[NewPart "hello world"]] from rfl]
          exact List.mem_singleton.mpr rfl),
    rfl⟩

end Benthos
